import Mathlib

/-!
# ArcadeHub persistence core: a shallow embedding

This file embeds the database helper module of the ArcadeHub repository
(`db.py`) as pure Lean functions over an explicit store state, and proves
the spec claims about friends, leaderboards and achievements against it.

The store (`DB`) carries the three relations the claims touch
(`friends`, `leaderboard`, `achievements`) as lists of rows in insertion
order, plus a logical clock standing in for `datetime.utcnow()`:
each write stamps the current clock value and advances it, so
timestamps are strictly increasing across writes (the claims under
study only depend on membership and aggregates, not on tie-breaking
between equal timestamps).

SQL constructs are embedded as follows: `WHERE` is `List.filter`,
`GROUP BY` enumerates the `List.dedup` of the grouping key, `MAX`/`SUM`
return `Option` (`none` for `NULL` on an empty group, as in SQLite) and
the Python `row[...] if ... is not None else 0` sentinel is `Option.getD 0`,
`ORDER BY ... DESC` is `List.insertionSort` with a "greater or equal"
relation, `LIMIT` is `List.take`.
-/

namespace ArcadeHub

/-- Friend edge status: the `status` column of the `friends` table. -/
inductive FriendStatus
  | pending
  | accepted
deriving DecidableEq, Repr

/-- One row of the `friends` table. -/
structure FriendRow where
  user : String
  friend : String
  status : FriendStatus
  added_at : Nat
deriving DecidableEq, Repr

/-- One row of the `leaderboard` table (a score event). -/
structure ScoreRow where
  game : String
  user : String
  score : Int
  created_at : Nat
deriving DecidableEq, Repr

/-- One row of the `achievements` table. -/
structure AchRow where
  user : String
  key : String
  reason : String
  awarded_at : Nat
deriving DecidableEq, Repr

/-- The store state: the three relations the claims are about, plus the
logical clock standing in for `datetime.utcnow()`. -/
structure DB where
  friends : List FriendRow
  leaderboard : List ScoreRow
  achievements : List AchRow
  clock : Nat
deriving DecidableEq, Repr

/-- A freshly initialised store (`init_db` on a new file). -/
def emptyDB : DB := ⟨[], [], [], 0⟩

/-- `ORDER BY added_at DESC` comparison for friend rows. -/
def byAddedAtDesc (a b : FriendRow) : Prop := b.added_at ≤ a.added_at

instance : DecidableRel byAddedAtDesc := fun a b =>
  inferInstanceAs (Decidable (b.added_at ≤ a.added_at))

/-- `add_friend(user, friend)`: one unconditional
`INSERT INTO friends (user, friend, added_at, status) VALUES (user, friend, now, 'pending')`. -/
def add_friend (user friend : String) (db : DB) : DB :=
  { db with
    friends := db.friends ++ [⟨user, friend, FriendStatus.pending, db.clock⟩]
    clock := db.clock + 1 }

/-- `get_friend_requests(user)`:
`SELECT user FROM friends WHERE friend=? AND status='pending' ORDER BY added_at DESC`. -/
def get_friend_requests (user : String) (db : DB) : List String :=
  (((db.friends.filter
      (fun r => decide (r.friend = user ∧ r.status = FriendStatus.pending))).insertionSort
      byAddedAtDesc).map FriendRow.user)

/-- The statement
`UPDATE friends SET status='accepted', added_at=now WHERE user=requester AND friend=user AND status='pending'`
run by `accept_friend_request`, applied to the rows of the `friends` table. -/
def acceptUpdate (user requester : String) (now : Nat) (l : List FriendRow) : List FriendRow :=
  l.map (fun r =>
    if r.user = requester ∧ r.friend = user ∧ r.status = FriendStatus.pending then
      { r with status := FriendStatus.accepted, added_at := now }
    else r)

/-- `accept_friend_request(user, requester)`: the `UPDATE` above, then
`SELECT id FROM friends WHERE user=? AND friend=?` and, when that finds no
row, an `INSERT` of the mirrored accepted edge. -/
def accept_friend_request (user requester : String) (db : DB) : DB :=
  if ((acceptUpdate user requester db.clock db.friends).filter
      (fun r => decide (r.user = user ∧ r.friend = requester))).isEmpty then
    { db with
      friends := acceptUpdate user requester db.clock db.friends ++
        [⟨user, requester, FriendStatus.accepted, db.clock + 1⟩]
      clock := db.clock + 2 }
  else
    { db with
      friends := acceptUpdate user requester db.clock db.friends
      clock := db.clock + 1 }

/-- `get_friends(user)`:
`SELECT friend FROM friends WHERE user=? AND status='accepted' ORDER BY added_at DESC`
(the `OperationalError` fallback for a store without the `status` column never
fires post-migration and is not modelled). -/
def get_friends (user : String) (db : DB) : List String :=
  (((db.friends.filter
      (fun r => decide (r.user = user ∧ r.status = FriendStatus.accepted))).insertionSort
      byAddedAtDesc).map FriendRow.friend)

/-! ## Score ledger and aggregates -/

/-- `MAX(score)` over a group: `NULL` (`none`) on an empty group, else the
maximum, folded exactly as SQLite scans the rows. -/
def maxScore : List Int → Option Int
  | [] => none
  | s :: rest => some (rest.foldl max s)

/-- `SUM(score)` over a group: `NULL` (`none`) on an empty group, else the sum. -/
def sumAgg : List Int → Option Int
  | [] => none
  | l => some l.sum

/-- The scores of the rows matching `WHERE user=? AND game=?`, in insertion order. -/
def userGameScores (db : DB) (user game : String) : List Int :=
  (db.leaderboard.filter (fun r => decide (r.user = user ∧ r.game = game))).map ScoreRow.score

/-- The scores of the rows matching `WHERE user=?`, in insertion order. -/
def userScores (db : DB) (user : String) : List Int :=
  (db.leaderboard.filter (fun r => decide (r.user = user))).map ScoreRow.score

/-- `COUNT(*) FROM leaderboard WHERE user=? AND game=?`. -/
def playCount (db : DB) (user game : String) : Nat :=
  (db.leaderboard.filter (fun r => decide (r.user = user ∧ r.game = game))).length

/-- `get_user_best_for_game(user, game)`:
`SELECT MAX(score) FROM leaderboard WHERE user=? AND game=?`, with the
`row if not None else 0` sentinel. -/
def get_user_best_for_game (user game : String) (db : DB) : Int :=
  (maxScore (userGameScores db user game)).getD 0

/-- `get_user_total(user)`: `SELECT SUM(score) FROM leaderboard WHERE user=?`
with the `0` sentinel for `NULL`. -/
def get_user_total (user : String) (db : DB) : Int :=
  (sumAgg (userScores db user)).getD 0

/-- `get_user_game_total(user, game)`:
`SELECT SUM(score) FROM leaderboard WHERE user=? AND game=?` with the `0`
sentinel for `NULL`. -/
def get_user_game_total (user game : String) (db : DB) : Int :=
  (sumAgg (userGameScores db user game)).getD 0

/-- The distinct games a user has at least one event in
(the groups of `SELECT MAX(score) FROM leaderboard WHERE user=? GROUP BY game`). -/
def userGames (db : DB) (user : String) : List String :=
  ((db.leaderboard.filter (fun r => decide (r.user = user))).map ScoreRow.game).dedup

/-- `get_user_overall_by_bests(user)`:
`SELECT SUM(best) FROM (SELECT MAX(score) as best FROM leaderboard WHERE user=? GROUP BY game)`
with the `0` sentinel for `NULL`. -/
def get_user_overall_by_bests (user : String) (db : DB) : Int :=
  (sumAgg ((userGames db user).map
    (fun g => (maxScore (userGameScores db user g)).getD 0))).getD 0

/-- The groups of `SELECT ... FROM leaderboard GROUP BY user, game`. -/
def allUserGamePairs (db : DB) : List (String × String) :=
  (db.leaderboard.map (fun r => (r.user, r.game))).dedup

/-- The groups of `SELECT ... FROM leaderboard GROUP BY user`. -/
def allUsers (db : DB) : List String :=
  (db.leaderboard.map ScoreRow.user).dedup

/-- The distinct users with at least one event in `game`
(the groups of `SELECT user, MAX(score) FROM leaderboard WHERE game=? GROUP BY user`). -/
def gameUsers (db : DB) (game : String) : List String :=
  ((db.leaderboard.filter (fun r => decide (r.game = game))).map ScoreRow.user).dedup

/-- `get_rank_for_game(user, game)`: `None` when the user's
`MAX(score)` for the game is `NULL`, else `1 +` the
`COUNT(*) FROM (SELECT user, MAX(score) as best FROM leaderboard WHERE game=? GROUP BY user) WHERE best > ?`. -/
def get_rank_for_game (user game : String) (db : DB) : Option Nat :=
  match maxScore (userGameScores db user game) with
  | none => none
  | some best =>
    some (((gameUsers db game).filter
      (fun u2 => decide (best < (maxScore (userGameScores db u2 game)).getD 0))).length + 1)

/-- `ORDER BY total DESC` comparison for `(user, total)` pairs. -/
def byTotalDesc (a b : String × Int) : Prop := b.2 ≤ a.2

instance : DecidableRel byTotalDesc := fun a b =>
  inferInstanceAs (Decidable (b.2 ≤ a.2))

instance : IsTotal (String × Int) byTotalDesc :=
  ⟨fun a b => (le_total b.2 a.2).elim Or.inl Or.inr⟩

instance : IsTrans (String × Int) byTotalDesc :=
  ⟨fun _ _ _ h1 h2 => le_trans h2 h1⟩

/-- `get_overall_leaderboard_by_bests(limit)`:
`SELECT user, SUM(best) as total FROM (SELECT user, game, MAX(score) as best FROM leaderboard GROUP BY user, game) GROUP BY user ORDER BY total DESC LIMIT ?`. -/
def get_overall_leaderboard_by_bests (limit : Nat) (db : DB) : List (String × Int) :=
  ((((allUsers db).map (fun u =>
      (u, (((allUserGamePairs db).filter (fun p => decide (p.1 = u))).map
        (fun p => (maxScore (userGameScores db p.1 p.2)).getD 0)).sum))).insertionSort
      byTotalDesc).take limit)

/-! ## Achievement engine -/

/-- The achievement key `f"{game}_score_{th}"`. -/
def scoreKey (game : String) (th : Nat) : String := game ++ "_score_" ++ toString th

/-- The achievement key `f"{game}_plays_{pth}"`. -/
def playsKey (game : String) (pth : Nat) : String := game ++ "_plays_" ++ toString pth

/-- The reason string `f"Score >= {th} in {game}"`. -/
def scoreReason (game : String) (th : Nat) : String :=
  "Score >= " ++ toString th ++ " in " ++ game

/-- The reason string `f"Played {pth} games of {game}"`. -/
def playsReason (game : String) (pth : Nat) : String :=
  "Played " ++ toString pth ++ " games of " ++ game

/-- The fixed score thresholds `[500, 1000]` (used both by
`_maybe_award_achievements` and, as the tuple `(500, 1000)`, by
`rescan_achievements`). -/
def scoreThresholds : List Nat := [500, 1000]

/-- The fixed play-count thresholds `[5, 10, 25]` (list in
`_maybe_award_achievements`, tuple `(5, 10, 25)` in `rescan_achievements`). -/
def playThresholds : List Nat := [5, 10, 25]

/-- `_award(conn, cur, user, key, reason)`:
`SELECT id FROM achievements WHERE user=? AND key=?`, and an `INSERT` only
when that finds no row. -/
def _award (db : DB) (user key reason : String) : DB :=
  if (db.achievements.filter (fun a => decide (a.user = user ∧ a.key = key))).isEmpty then
    { db with
      achievements := db.achievements ++ [⟨user, key, reason, db.clock⟩]
      clock := db.clock + 1 }
  else db

/-- A `for th in thresholds: if cond(th): _award(...)` loop, the common shape
of both loops of `_maybe_award_achievements`. -/
def awardIfFold (user : String) (c : Nat → Prop) [DecidablePred c]
    (key rsn : Nat → String) (l : List Nat) (db : DB) : DB :=
  l.foldl (fun d th => if c th then _award d user (key th) (rsn th) else d) db

/-- `_maybe_award_achievements(user, game, score)`: the score-threshold loop
over the just-recorded `score` (`if score >= th`), then `COUNT(*)` of the
user's events for the game, then the play-threshold loop (`if cnt >= pth`). -/
def _maybe_award_achievements (user game : String) (score : Int) (db : DB) : DB :=
  let db1 := awardIfFold user (fun th => Int.ofNat th ≤ score)
    (scoreKey game) (scoreReason game) scoreThresholds db
  awardIfFold user (fun pth => pth ≤ playCount db1 user game)
    (playsKey game) (playsReason game) playThresholds db1

/-- `record_score(game, user, score)`: append one event row, then run
`_maybe_award_achievements(user, game, score)`. -/
def record_score (game user : String) (score : Int) (db : DB) : DB :=
  _maybe_award_achievements user game score
    { db with
      leaderboard := db.leaderboard ++ [⟨game, user, score, db.clock⟩]
      clock := db.clock + 1 }

/-- A `for th in thresholds: if cond(th): _award(...); awarded += 1` loop,
the common shape of both loops of `rescan_achievements`, threading the
`awarded` counter with the connection state. -/
def awardCountFold (user : String) (c : Nat → Prop) [DecidablePred c]
    (key rsn : Nat → String) (l : List Nat) (acc : Nat × DB) : Nat × DB :=
  l.foldl (fun a th => if c th then (a.1 + 1, _award a.2 user (key th) (rsn th)) else a) acc

/-- One iteration of `rescan_achievements`'s loop body for a
`GROUP BY user, game` row `p`: the score-threshold loop, then the play-count
loop; the aggregates (`max_score` with Python's `or 0`, and `plays`) are read
from the snapshot `db0` the query was run against. -/
def rescanStep (db0 : DB) (acc : Nat × DB) (p : String × String) : Nat × DB :=
  awardCountFold p.1 (fun pth => pth ≤ playCount db0 p.1 p.2)
    (playsKey p.2) (playsReason p.2) playThresholds
    (awardCountFold p.1 (fun th => Int.ofNat th ≤ (maxScore (userGameScores db0 p.1 p.2)).getD 0)
      (scoreKey p.2) (scoreReason p.2) scoreThresholds acc)

/-- `rescan_achievements()`: iterate the
`SELECT user, game, MAX(score), COUNT(*) FROM leaderboard GROUP BY user, game`
rows, awarding and counting; returns `(awarded, final store)`. -/
def rescan_achievements (db : DB) : Nat × DB :=
  (allUserGamePairs db).foldl (rescanStep db) (0, db)

/-! ## Derived state predicates and operation sequences -/

/-- The (user, key) uniqueness invariant of the `achievements` relation. -/
def uniqueAch (db : DB) : Prop :=
  (db.achievements.map (fun a => (a.user, a.key))).Nodup

/-- An achievement row with this user and key exists
(what `_award`'s guarding `SELECT` tests). -/
def achPresent (db : DB) (user key : String) : Prop :=
  ∃ a ∈ db.achievements, a.user = user ∧ a.key = key

instance (db : DB) (user key : String) : Decidable (achPresent db user key) :=
  inferInstanceAs (Decidable (∃ a ∈ db.achievements, _ ∧ _))

/-- Every threshold the ledger of `db0` meets has its achievement row in
`db`: exactly the property that makes `rescan_achievements` insert nothing. -/
def coveredBy (db0 db : DB) : Prop :=
  ∀ p ∈ allUserGamePairs db0,
    (∀ th ∈ scoreThresholds,
      Int.ofNat th ≤ (maxScore (userGameScores db0 p.1 p.2)).getD 0 →
        achPresent db p.1 (scoreKey p.2 th)) ∧
    (∀ pth ∈ playThresholds,
      pth ≤ playCount db0 p.1 p.2 → achPresent db p.1 (playsKey p.2 pth))

/-- The achievement-relevant operations of the public API: `record_score`
and `rescan_achievements` (whose returned count is discarded). -/
inductive Op
  | record (game user : String) (score : Int)
  | rescan

/-- Run one operation against the store. -/
def applyOp (db : DB) : Op → DB
  | .record g u s => record_score g u s db
  | .rescan => (rescan_achievements db).2

/-! ## Friend graph: request and accept (claims C1, C2) -/

theorem mem_get_friend_requests {x u : String} {db : DB} :
    x ∈ get_friend_requests u db ↔
      ∃ r ∈ db.friends, r.user = x ∧ r.friend = u ∧ r.status = FriendStatus.pending := by
  unfold get_friend_requests
  simp only [List.mem_map, List.mem_insertionSort, List.mem_filter, decide_eq_true_eq]
  constructor
  · rintro ⟨r, ⟨hr, hf, hs⟩, rfl⟩
    exact ⟨r, hr, rfl, hf, hs⟩
  · rintro ⟨r, hr, rfl, hf, hs⟩
    exact ⟨r, ⟨hr, hf, hs⟩, rfl⟩

theorem mem_get_friends {x u : String} {db : DB} :
    x ∈ get_friends u db ↔
      ∃ r ∈ db.friends, r.user = u ∧ r.friend = x ∧ r.status = FriendStatus.accepted := by
  unfold get_friends
  simp only [List.mem_map, List.mem_insertionSort, List.mem_filter, decide_eq_true_eq]
  constructor
  · rintro ⟨r, ⟨hr, hu, hs⟩, rfl⟩
    exact ⟨r, hr, hu, rfl, hs⟩
  · rintro ⟨r, hr, hu, rfl, hs⟩
    exact ⟨r, ⟨hr, hu, hs⟩, rfl⟩

/-- The two possible shapes of the `friends` table after
`accept_friend_request`, depending on whether the mirror `SELECT` found a row. -/
theorem accept_friend_request_friends (user requester : String) (db : DB) :
    (accept_friend_request user requester db).friends =
        acceptUpdate user requester db.clock db.friends ++
          [⟨user, requester, FriendStatus.accepted, db.clock + 1⟩] ∨
    ((accept_friend_request user requester db).friends =
        acceptUpdate user requester db.clock db.friends ∧
      ∃ r ∈ acceptUpdate user requester db.clock db.friends,
        r.user = user ∧ r.friend = requester) := by
  by_cases hc : ((acceptUpdate user requester db.clock db.friends).filter
      (fun r => decide (r.user = user ∧ r.friend = requester))).isEmpty
  · left
    rw [accept_friend_request, if_pos hc]
  · right
    rw [accept_friend_request, if_neg hc]
    refine ⟨rfl, ?_⟩
    simpa [List.isEmpty_iff] using hc

/-- **C1** (amended): `add_friend(u, f)` appends exactly one new pending edge
whose `user` field is `u` and whose `friend` field is `f` — the requester goes
in the `user` column — so `get_friend_requests(f)` (not `get_friend_requests(u)`)
lists `u` afterwards. -/
theorem add_friend_adds_pending_edge (u f : String) (db : DB) :
    (add_friend u f db).friends =
      db.friends ++ [⟨u, f, FriendStatus.pending, db.clock⟩] ∧
    u ∈ get_friend_requests f (add_friend u f db) := by
  refine ⟨rfl, ?_⟩
  rw [mem_get_friend_requests]
  exact ⟨⟨u, f, FriendStatus.pending, db.clock⟩, by simp [add_friend], rfl, rfl, rfl⟩

/-- **C1** counterexample: after `requestFriend("bob","ann")` — that is,
`add_friend("bob","ann")` — on an empty store, `listIncomingRequests("bob")`
(`get_friend_requests("bob")`) does *not* contain `"ann"`: the inserted edge
has `user="bob"`, `friend="ann"`, the reverse of what the claim states. -/
theorem add_friend_claimed_direction_fails :
    ¬ ("ann" ∈ get_friend_requests "bob" (add_friend "bob" "ann" emptyDB)) := by
  decide

/-- **C2** (amended): if every already-stored edge from `u` to `r` is accepted
(in particular if there is none), then after the pending request created by
`add_friend(r, u)` — `r` asking `u`, which is how the claimed scenario arises
in the code — `accept_friend_request(u, r)` flips that edge to accepted and
ensures the mirror, so `get_friends(u)` contains `r` and `get_friends(r)`
contains `u`. -/
theorem accept_after_request_makes_friends (u r : String) (db : DB)
    (h : ∀ e ∈ db.friends, e.user = u → e.friend = r →
      e.status = FriendStatus.accepted) :
    r ∈ get_friends u (accept_friend_request u r (add_friend r u db)) ∧
    u ∈ get_friends r (accept_friend_request u r (add_friend r u db)) := by
  set db1 := add_friend r u db with hdb1
  have hfr1 : db1.friends = db.friends ++ [⟨r, u, FriendStatus.pending, db.clock⟩] := rfl
  -- the pending edge is flipped to accepted by the UPDATE
  have hflip : (⟨r, u, FriendStatus.accepted, db1.clock⟩ : FriendRow) ∈
      acceptUpdate u r db1.clock db1.friends := by
    have h0 : (⟨r, u, FriendStatus.pending, db.clock⟩ : FriendRow) ∈ db1.friends := by
      simp [hfr1]
    have := List.mem_map_of_mem (fun x : FriendRow =>
      if x.user = r ∧ x.friend = u ∧ x.status = FriendStatus.pending then
        { x with status := FriendStatus.accepted, added_at := db1.clock }
      else x) h0
    simpa [acceptUpdate] using this
  have hupd : ∀ x ∈ acceptUpdate u r db1.clock db1.friends,
      x ∈ db1.friends ∨ x.status = FriendStatus.accepted := by
    intro x hx
    rcases List.mem_map.mp hx with ⟨y, _, rfl⟩
    by_cases hy : y.user = r ∧ y.friend = u ∧ y.status = FriendStatus.pending
    · right; simp [hy]
    · left; simpa [hy] using ‹y ∈ db1.friends›
  constructor
  · -- r ∈ get_friends u
    rw [mem_get_friends]
    rcases accept_friend_request_friends u r db1 with hcase | ⟨hcase, e, he, heu, her⟩
    · exact ⟨⟨u, r, FriendStatus.accepted, db1.clock + 1⟩, by simp [hcase], rfl, rfl, rfl⟩
    · refine ⟨e, by simp [hcase, he], heu, her, ?_⟩
      rcases hupd e he with hmem | hacc
      · -- e is an unmodified row of db1: by the hypothesis it is accepted
        rw [hfr1] at hmem
        rcases List.mem_append.mp hmem with hmem | hmem
        · exact h e hmem heu her
        · -- e is the freshly inserted pending edge, but no pending row with
          -- user = r and friend = u survives the UPDATE
          simp only [List.mem_singleton] at hmem
          subst hmem
          exfalso
          rcases List.mem_map.mp he with ⟨y, hy, hye⟩
          by_cases hcond : y.user = r ∧ y.friend = u ∧ y.status = FriendStatus.pending
          · rw [if_pos hcond] at hye
            have hst := congrArg FriendRow.status hye
            simp at hst
          · rw [if_neg hcond] at hye
            subst hye
            exact hcond ⟨rfl, rfl, rfl⟩
      · exact hacc
  · -- u ∈ get_friends r
    rw [mem_get_friends]
    rcases accept_friend_request_friends u r db1 with hcase | ⟨hcase, _⟩
    · exact ⟨⟨r, u, FriendStatus.accepted, db1.clock⟩, by simp [hcase, hflip], rfl, rfl, rfl⟩
    · exact ⟨⟨r, u, FriendStatus.accepted, db1.clock⟩, by simp [hcase, hflip], rfl, rfl, rfl⟩

/-- **C2** counterexample: pairing `requestFriend` and `acceptRequest` with the
same argument order, as the claim does — `add_friend("bob","ann")` then
`accept_friend_request("bob","ann")` — leaves `get_friends("bob")` without
`"ann"`: the `UPDATE` matches no row and the mirror `SELECT` finds the still
pending edge, so nothing is ever accepted. -/
theorem accept_claimed_direction_fails :
    ¬ ("ann" ∈ get_friends "bob"
      (accept_friend_request "bob" "ann" (add_friend "bob" "ann" emptyDB))) := by
  decide

/-- **C2** witness: the amended scenario on an empty store —
`add_friend("ann","bob")` then `accept_friend_request("bob","ann")` — makes
the friendship visible from both sides. -/
theorem accept_after_request_makes_friends_witness :
    "ann" ∈ get_friends "bob"
      (accept_friend_request "bob" "ann" (add_friend "ann" "bob" emptyDB)) ∧
    "bob" ∈ get_friends "ann"
      (accept_friend_request "bob" "ann" (add_friend "ann" "bob" emptyDB)) :=
  accept_after_request_makes_friends "bob" "ann" emptyDB (by intro e he; simp [emptyDB] at he)

/-! ## Toolkit: `_award` and the award loops -/

theorem award_filter_isEmpty {db : DB} {u k : String} :
    (db.achievements.filter (fun a => decide (a.user = u ∧ a.key = k))).isEmpty = true ↔
      ¬ achPresent db u k := by
  simp [List.isEmpty_iff, List.filter_eq_nil_iff, achPresent]

theorem award_of_present {db : DB} {u k : String} (rsn : String)
    (h : achPresent db u k) : _award db u k rsn = db := by
  rw [_award, if_neg]
  simp only [award_filter_isEmpty, not_not]
  exact h

theorem award_present_self (db : DB) (u k rsn : String) :
    achPresent (_award db u k rsn) u k := by
  rw [_award]
  split_ifs with hc
  · exact ⟨⟨u, k, rsn, db.clock⟩, by simp, rfl, rfl⟩
  · exact of_not_not (fun hnp => hc (award_filter_isEmpty.mpr hnp))

theorem award_mono {db : DB} {a b : String} (u k rsn : String)
    (h : achPresent db a b) : achPresent (_award db u k rsn) a b := by
  simp only [achPresent] at h ⊢
  rw [_award]
  split_ifs with hc
  · rcases h with ⟨x, hx, h1, h2⟩
    exact ⟨x, by simp [hx], h1, h2⟩
  · exact h

theorem award_leaderboard (db : DB) (u k rsn : String) :
    (_award db u k rsn).leaderboard = db.leaderboard := by
  rw [_award]; split_ifs <;> rfl

theorem award_uniqueAch {db : DB} (u k rsn : String) (h : uniqueAch db) :
    uniqueAch (_award db u k rsn) := by
  rw [_award]
  split_ifs with hc
  · have hnp : ¬ achPresent db u k := award_filter_isEmpty.mp hc
    show ((db.achievements ++ [(⟨u, k, rsn, db.clock⟩ : AchRow)]).map
      fun a => (a.user, a.key)).Nodup
    rw [List.map_append, List.nodup_append]
    refine ⟨h, by simp, ?_⟩
    intro x hx hx1
    simp only [List.map_cons, List.map_nil, List.mem_singleton] at hx1
    rcases List.mem_map.mp hx with ⟨a, ha, rfl⟩
    exact hnp ⟨a, ha, congrArg Prod.fst hx1, congrArg Prod.snd hx1⟩
  · exact h

theorem awardIfFold_cons (user : String) (c : Nat → Prop) [DecidablePred c]
    (key rsn : Nat → String) (x : Nat) (t : List Nat) (db : DB) :
    awardIfFold user c key rsn (x :: t) db =
      awardIfFold user c key rsn t
        (if c x then _award db user (key x) (rsn x) else db) := rfl

theorem awardCountFold_cons (user : String) (c : Nat → Prop) [DecidablePred c]
    (key rsn : Nat → String) (x : Nat) (t : List Nat) (acc : Nat × DB) :
    awardCountFold user c key rsn (x :: t) acc =
      awardCountFold user c key rsn t
        (if c x then (acc.1 + 1, _award acc.2 user (key x) (rsn x)) else acc) := rfl

theorem awardIfFold_leaderboard (user : String) (c : Nat → Prop) [DecidablePred c]
    (key rsn : Nat → String) (l : List Nat) (db : DB) :
    (awardIfFold user c key rsn l db).leaderboard = db.leaderboard := by
  induction l generalizing db with
  | nil => rfl
  | cons x t ih =>
    rw [awardIfFold_cons, ih]
    split_ifs <;> simp [award_leaderboard]

theorem awardIfFold_mono (user : String) (c : Nat → Prop) [DecidablePred c]
    (key rsn : Nat → String) (l : List Nat) {db : DB} {a b : String}
    (h : achPresent db a b) :
    achPresent (awardIfFold user c key rsn l db) a b := by
  induction l generalizing db with
  | nil => exact h
  | cons x t ih =>
    rw [awardIfFold_cons]
    split_ifs with hc
    · exact ih (award_mono _ _ _ h)
    · exact ih h

theorem awardIfFold_establishes (user : String) (c : Nat → Prop) [DecidablePred c]
    (key rsn : Nat → String) (l : List Nat) (db : DB) {th : Nat}
    (hth : th ∈ l) (hc : c th) :
    achPresent (awardIfFold user c key rsn l db) user (key th) := by
  induction l generalizing db with
  | nil => cases hth
  | cons x t ih =>
    rw [awardIfFold_cons]
    rcases List.mem_cons.mp hth with rfl | hmem
    · rw [if_pos hc]
      exact awardIfFold_mono user c key rsn t (award_present_self db user (key th) (rsn th))
    · split_ifs <;> exact ih _ hmem

theorem awardIfFold_of_covered (user : String) (c : Nat → Prop) [DecidablePred c]
    (key rsn : Nat → String) (l : List Nat) (db : DB)
    (h : ∀ th ∈ l, c th → achPresent db user (key th)) :
    awardIfFold user c key rsn l db = db := by
  induction l with
  | nil => rfl
  | cons x t ih =>
    rw [awardIfFold_cons]
    split_ifs with hc
    · rw [award_of_present _ (h x (List.mem_cons_self x t) hc)]
      exact ih (fun th hth => h th (List.mem_cons_of_mem x hth))
    · exact ih (fun th hth => h th (List.mem_cons_of_mem x hth))

theorem awardIfFold_uniqueAch (user : String) (c : Nat → Prop) [DecidablePred c]
    (key rsn : Nat → String) (l : List Nat) {db : DB} (h : uniqueAch db) :
    uniqueAch (awardIfFold user c key rsn l db) := by
  induction l generalizing db with
  | nil => exact h
  | cons x t ih =>
    rw [awardIfFold_cons]
    split_ifs with hc
    · exact ih (award_uniqueAch _ _ _ h)
    · exact ih h

theorem awardCountFold_eq (user : String) (c : Nat → Prop) [DecidablePred c]
    (key rsn : Nat → String) (l : List Nat) (acc : Nat × DB) :
    awardCountFold user c key rsn l acc =
      (acc.1 + (l.filter (fun th => decide (c th))).length,
        awardIfFold user c key rsn l acc.2) := by
  induction l generalizing acc with
  | nil => simp [awardCountFold, awardIfFold]
  | cons x t ih =>
    rw [awardCountFold_cons, awardIfFold_cons]
    split_ifs with hc
    · rw [ih, List.filter_cons_of_pos (by simpa using hc)]
      simp [Nat.add_comm, Nat.add_assoc, Nat.add_left_comm]
    · rw [ih, List.filter_cons_of_neg (by simpa using hc)]

/-! ## Score ledger lemmas (claims C7, C10) -/

theorem record_score_leaderboard (g u : String) (s : Int) (db : DB) :
    (record_score g u s db).leaderboard = db.leaderboard ++ [⟨g, u, s, db.clock⟩] := by
  simp only [record_score, _maybe_award_achievements]
  rw [awardIfFold_leaderboard, awardIfFold_leaderboard]

theorem userGameScores_record_same (g u : String) (s : Int) (db : DB) :
    userGameScores (record_score g u s db) u g = userGameScores db u g ++ [s] := by
  unfold userGameScores
  rw [record_score_leaderboard, List.filter_append, List.map_append]
  simp

theorem userGameScores_fold (g u : String) (scores : List Int) (db : DB) :
    userGameScores (scores.foldl (fun d s => record_score g u s d) db) u g =
      userGameScores db u g ++ scores := by
  induction scores generalizing db with
  | nil => simp
  | cons s t ih =>
    rw [List.foldl_cons, ih, userGameScores_record_same, List.append_assoc,
      List.singleton_append]

theorem foldl_max_mem (a : Int) (t : List Int) :
    t.foldl max a = a ∨ t.foldl max a ∈ t := by
  induction t generalizing a with
  | nil => left; rfl
  | cons b t ih =>
    rw [List.foldl_cons]
    rcases ih (max a b) with h | h
    · rcases max_choice a b with hm | hm
      · left; rw [h, hm]
      · right; rw [h, hm]; exact List.mem_cons_self _ _
    · right; exact List.mem_cons_of_mem _ h

theorem le_foldl_max (a : Int) (t : List Int) :
    a ≤ t.foldl max a ∧ ∀ s ∈ t, s ≤ t.foldl max a := by
  induction t generalizing a with
  | nil => exact ⟨le_refl a, by simp⟩
  | cons b t ih =>
    rw [List.foldl_cons]
    refine ⟨le_trans (le_max_left a b) (ih (max a b)).1, ?_⟩
    intro s hs
    rcases List.mem_cons.mp hs with rfl | hs
    · exact le_trans (le_max_right a s) (ih (max a s)).1
    · exact (ih (max a b)).2 s hs

/-- **C7**: starting from an empty store, after any finite sequence of
`record_score` calls for a fixed `(user, game)`, `get_user_game_total` is the
arithmetic sum of all score arguments, and (when at least one score was
recorded) `get_user_best_for_game` is the maximum score argument ever passed:
it is one of the arguments and dominates them all. -/
theorem best_is_max_total_is_sum (user game : String) (scores : List Int) :
    get_user_game_total user game
        (scores.foldl (fun d s => record_score game user s d) emptyDB) = scores.sum ∧
    (scores ≠ [] →
      get_user_best_for_game user game
          (scores.foldl (fun d s => record_score game user s d) emptyDB) ∈ scores ∧
      ∀ s ∈ scores, s ≤ get_user_best_for_game user game
          (scores.foldl (fun d s => record_score game user s d) emptyDB)) := by
  have hsc : userGameScores
      (scores.foldl (fun d s => record_score game user s d) emptyDB) user game = scores := by
    rw [userGameScores_fold]
    rfl
  constructor
  · rw [get_user_game_total, hsc]
    cases scores with
    | nil => rfl
    | cons a t => rfl
  · intro hne
    rw [get_user_best_for_game, hsc]
    cases scores with
    | nil => exact absurd rfl hne
    | cons a t =>
      show (t.foldl max a ∈ a :: t) ∧ _
      constructor
      · rcases foldl_max_mem a t with h | h
        · rw [h]; exact List.mem_cons_self _ _
        · exact List.mem_cons_of_mem _ h
      · intro s hs
        rcases List.mem_cons.mp hs with rfl | hs
        · exact (le_foldl_max s t).1
        · exact (le_foldl_max a t).2 s hs

/-- **C7** witness: recording 5 then 2 for `("ann", "Snake")` gives total 7
and best 5, which is one of the recorded scores and dominates both. -/
theorem best_is_max_total_is_sum_witness :
    get_user_game_total "ann" "Snake"
        (([5, 2] : List Int).foldl (fun d s => record_score "Snake" "ann" s d) emptyDB) =
      ([5, 2] : List Int).sum ∧
    (get_user_best_for_game "ann" "Snake"
        (([5, 2] : List Int).foldl (fun d s => record_score "Snake" "ann" s d) emptyDB) ∈
      ([5, 2] : List Int) ∧
    ∀ s ∈ ([5, 2] : List Int), s ≤ get_user_best_for_game "ann" "Snake"
        (([5, 2] : List Int).foldl (fun d s => record_score "Snake" "ann" s d) emptyDB)) :=
  ⟨(best_is_max_total_is_sum "ann" "Snake" [5, 2]).1,
    (best_is_max_total_is_sum "ann" "Snake" [5, 2]).2 (by decide)⟩

/-- **C10**: for a user with zero score events in the ledger, `get_user_total`,
`get_user_game_total` (for any game) and `get_user_overall_by_bests` all return
the integer 0 — the `NULL`-to-`0` sentinel — rather than an error value. -/
theorem totals_zero_of_no_events (u g : String) (db : DB)
    (h : ∀ r ∈ db.leaderboard, r.user ≠ u) :
    get_user_total u db = 0 ∧ get_user_game_total u g db = 0 ∧
    get_user_overall_by_bests u db = 0 := by
  have hf : db.leaderboard.filter (fun r => decide (r.user = u)) = [] :=
    List.filter_eq_nil_iff.mpr (fun r hr => by simp [h r hr])
  have hfg : db.leaderboard.filter (fun r => decide (r.user = u ∧ r.game = g)) = [] :=
    List.filter_eq_nil_iff.mpr (fun r hr => by simp [h r hr])
  refine ⟨?_, ?_, ?_⟩
  · rw [get_user_total, userScores, hf]; rfl
  · rw [get_user_game_total, userGameScores, hfg]; rfl
  · rw [get_user_overall_by_bests, userGames, hf]; rfl

/-- **C10** witness: on the empty store, all three totals for `"ann"` are 0. -/
theorem totals_zero_of_no_events_witness :
    get_user_total "ann" emptyDB = 0 ∧ get_user_game_total "ann" "Snake" emptyDB = 0 ∧
    get_user_overall_by_bests "ann" emptyDB = 0 :=
  totals_zero_of_no_events "ann" "Snake" emptyDB (by intro r hr; simp [emptyDB] at hr)

/-! ## Achievement uniqueness invariant (claim C4) -/

theorem record_score_uniqueAch (g u : String) (s : Int) {db : DB}
    (h : uniqueAch db) : uniqueAch (record_score g u s db) := by
  rw [record_score]
  simp only [_maybe_award_achievements]
  exact awardIfFold_uniqueAch _ _ _ _ _ (awardIfFold_uniqueAch _ _ _ _ _ h)

theorem rescanStep_uniqueAch (db0 : DB) (acc : Nat × DB) (p : String × String)
    (h : uniqueAch acc.2) : uniqueAch (rescanStep db0 acc p).2 := by
  simp only [rescanStep, awardCountFold_eq]
  exact awardIfFold_uniqueAch _ _ _ _ _ (awardIfFold_uniqueAch _ _ _ _ _ h)

theorem foldl_rescanStep_uniqueAch (db0 : DB) (l : List (String × String)) :
    ∀ acc : Nat × DB, uniqueAch acc.2 → uniqueAch (l.foldl (rescanStep db0) acc).2 := by
  induction l with
  | nil => exact fun _ h => h
  | cons p t ih =>
    intro acc h
    rw [List.foldl_cons]
    exact ih _ (rescanStep_uniqueAch db0 acc p h)

theorem applyOp_uniqueAch (db : DB) (op : Op) (h : uniqueAch db) :
    uniqueAch (applyOp db op) := by
  cases op with
  | record g u s => exact record_score_uniqueAch g u s h
  | rescan => exact foldl_rescanStep_uniqueAch db (allUserGamePairs db) (0, db) h

/-- **C4**: starting from an empty store, no sequence of `record_score` and
`rescan_achievements` calls ever produces two achievement rows with the same
`(user, key)` pair; in particular recording 600 for `("ann","Snake")` twice
leaves exactly one `"Snake_score_500"` row for `"ann"`. -/
theorem achievement_user_key_unique (ops : List Op) :
    uniqueAch (ops.foldl applyOp emptyDB) ∧
    ((record_score "Snake" "ann" 600
        (record_score "Snake" "ann" 600 emptyDB)).achievements.filter
      (fun a => decide (a.user = "ann" ∧ a.key = "Snake_score_500"))).length = 1 := by
  constructor
  · have hstep : ∀ (l : List Op) (db : DB), uniqueAch db → uniqueAch (l.foldl applyOp db) := by
      intro l
      induction l with
      | nil => exact fun _ h => h
      | cons op t ih =>
        intro db h
        rw [List.foldl_cons]
        exact ih _ (applyOp_uniqueAch db op h)
    exact hstep ops emptyDB (by simp [uniqueAch, emptyDB])
  · decide

/-! ## Rescan is a fixed point (claim C5) -/

theorem userGameScores_congr {d1 d2 : DB} (h : d1.leaderboard = d2.leaderboard)
    (u g : String) : userGameScores d1 u g = userGameScores d2 u g := by
  rw [userGameScores, userGameScores, h]

theorem playCount_congr {d1 d2 : DB} (h : d1.leaderboard = d2.leaderboard)
    (u g : String) : playCount d1 u g = playCount d2 u g := by
  rw [playCount, playCount, h]

theorem allUserGamePairs_congr {d1 d2 : DB} (h : d1.leaderboard = d2.leaderboard) :
    allUserGamePairs d1 = allUserGamePairs d2 := by
  rw [allUserGamePairs, allUserGamePairs, h]

theorem coveredBy_congr_left {d1 d2 db : DB} (h : d1.leaderboard = d2.leaderboard)
    (hc : coveredBy d1 db) : coveredBy d2 db := by
  intro p hp
  rw [← allUserGamePairs_congr h] at hp
  have := hc p hp
  rw [userGameScores_congr h, playCount_congr h] at this
  exact this

theorem rescanStep_leaderboard (db0 : DB) (acc : Nat × DB) (p : String × String) :
    (rescanStep db0 acc p).2.leaderboard = acc.2.leaderboard := by
  simp only [rescanStep, awardCountFold_eq]
  rw [awardIfFold_leaderboard, awardIfFold_leaderboard]

theorem foldl_rescanStep_leaderboard (db0 : DB) (l : List (String × String)) :
    ∀ acc : Nat × DB, (l.foldl (rescanStep db0) acc).2.leaderboard = acc.2.leaderboard := by
  induction l with
  | nil => exact fun _ => rfl
  | cons p t ih =>
    intro acc
    rw [List.foldl_cons, ih, rescanStep_leaderboard]

theorem rescan_leaderboard (db : DB) :
    (rescan_achievements db).2.leaderboard = db.leaderboard :=
  foldl_rescanStep_leaderboard db (allUserGamePairs db) (0, db)

theorem rescanStep_mono (db0 : DB) (acc : Nat × DB) (p : String × String)
    {a b : String} (h : achPresent acc.2 a b) :
    achPresent (rescanStep db0 acc p).2 a b := by
  simp only [rescanStep, awardCountFold_eq]
  exact awardIfFold_mono _ _ _ _ _ (awardIfFold_mono _ _ _ _ _ h)

theorem foldl_rescanStep_mono (db0 : DB) (l : List (String × String)) :
    ∀ acc : Nat × DB, ∀ a b : String, achPresent acc.2 a b →
      achPresent (l.foldl (rescanStep db0) acc).2 a b := by
  induction l with
  | nil => exact fun _ _ _ h => h
  | cons p t ih =>
    intro acc a b h
    rw [List.foldl_cons]
    exact ih _ _ _ (rescanStep_mono db0 acc p h)

theorem rescanStep_covers (db0 : DB) (acc : Nat × DB) (p : String × String) :
    (∀ th ∈ scoreThresholds,
      Int.ofNat th ≤ (maxScore (userGameScores db0 p.1 p.2)).getD 0 →
        achPresent (rescanStep db0 acc p).2 p.1 (scoreKey p.2 th)) ∧
    (∀ pth ∈ playThresholds, pth ≤ playCount db0 p.1 p.2 →
        achPresent (rescanStep db0 acc p).2 p.1 (playsKey p.2 pth)) := by
  simp only [rescanStep, awardCountFold_eq]
  constructor
  · intro th hth hcond
    exact awardIfFold_mono _ _ _ _ _ (awardIfFold_establishes _ _ _ _ _ _ hth hcond)
  · intro pth hpth hcond
    exact awardIfFold_establishes _ _ _ _ _ _ hpth hcond

theorem foldl_rescanStep_covers (db0 : DB) (l : List (String × String)) :
    ∀ acc : Nat × DB, ∀ p ∈ l,
      (∀ th ∈ scoreThresholds,
        Int.ofNat th ≤ (maxScore (userGameScores db0 p.1 p.2)).getD 0 →
          achPresent (l.foldl (rescanStep db0) acc).2 p.1 (scoreKey p.2 th)) ∧
      (∀ pth ∈ playThresholds, pth ≤ playCount db0 p.1 p.2 →
          achPresent (l.foldl (rescanStep db0) acc).2 p.1 (playsKey p.2 pth)) := by
  induction l with
  | nil => intro _ p hp; cases hp
  | cons q t ih =>
    intro acc p hp
    rw [List.foldl_cons]
    rcases List.mem_cons.mp hp with rfl | hp
    · have hc := rescanStep_covers db0 acc p
      exact ⟨fun th hth hcond => foldl_rescanStep_mono db0 t _ _ _ (hc.1 th hth hcond),
        fun pth hpth hcond => foldl_rescanStep_mono db0 t _ _ _ (hc.2 pth hpth hcond)⟩
    · exact ih _ p hp

theorem rescan_covers (db : DB) : coveredBy db (rescan_achievements db).2 :=
  fun p hp => foldl_rescanStep_covers db (allUserGamePairs db) (0, db) p hp

theorem rescanStep_noop (db0 : DB) (n : Nat) (db : DB) (p : String × String)
    (h1 : ∀ th ∈ scoreThresholds,
      Int.ofNat th ≤ (maxScore (userGameScores db0 p.1 p.2)).getD 0 →
        achPresent db p.1 (scoreKey p.2 th))
    (h2 : ∀ pth ∈ playThresholds, pth ≤ playCount db0 p.1 p.2 →
        achPresent db p.1 (playsKey p.2 pth)) :
    (rescanStep db0 (n, db) p).2 = db := by
  simp only [rescanStep, awardCountFold_eq]
  rw [awardIfFold_of_covered _ _ _ _ _ _ h1, awardIfFold_of_covered _ _ _ _ _ _ h2]

theorem foldl_rescanStep_noop (db0 db : DB) (l : List (String × String))
    (h : ∀ p ∈ l,
      (∀ th ∈ scoreThresholds,
        Int.ofNat th ≤ (maxScore (userGameScores db0 p.1 p.2)).getD 0 →
          achPresent db p.1 (scoreKey p.2 th)) ∧
      (∀ pth ∈ playThresholds, pth ≤ playCount db0 p.1 p.2 →
          achPresent db p.1 (playsKey p.2 pth))) :
    ∀ n : Nat, (l.foldl (rescanStep db0) (n, db)).2 = db := by
  induction l with
  | nil => exact fun _ => rfl
  | cons q t ih =>
    intro n
    rw [List.foldl_cons]
    have hq := h q (List.mem_cons_self q t)
    have hstep : rescanStep db0 (n, db) q = ((rescanStep db0 (n, db) q).1, db) := by
      have h2 := rescanStep_noop db0 n db q hq.1 hq.2
      exact Prod.ext rfl h2
    rw [hstep]
    exact ih (fun p hp => h p (List.mem_cons_of_mem q hp)) _

theorem rescan_noop_of_covered (db : DB) (h : coveredBy db db) :
    (rescan_achievements db).2 = db :=
  foldl_rescanStep_noop db db (allUserGamePairs db) (fun p hp => h p hp) 0

/-- **C5**: `rescan_achievements` is a fixed point of the achievement set: for
every store state, running it twice in a row leaves the achievements relation
after the second run identical to its state after the first run. -/
theorem rescan_achievements_idempotent (db : DB) :
    (rescan_achievements (rescan_achievements db).2).2.achievements =
      (rescan_achievements db).2.achievements := by
  have hlb : (rescan_achievements db).2.leaderboard = db.leaderboard :=
    rescan_leaderboard db
  have hcov : coveredBy (rescan_achievements db).2 (rescan_achievements db).2 :=
    coveredBy_congr_left hlb.symm (rescan_covers db)
  rw [rescan_noop_of_covered _ hcov]

/-! ## Online awards subsume the rescan (claim C9) -/

theorem userGameScores_record_other (g u : String) (s : Int) (db : DB)
    {u2 g2 : String} (hne : ¬(u2 = u ∧ g2 = g)) :
    userGameScores (record_score g u s db) u2 g2 = userGameScores db u2 g2 := by
  rw [userGameScores, userGameScores, record_score_leaderboard, List.filter_append]
  have hnil : List.filter (fun r => decide (r.user = u2 ∧ r.game = g2))
      [(⟨g, u, s, db.clock⟩ : ScoreRow)] = [] := by
    refine List.filter_eq_nil_iff.mpr (fun r hr => ?_)
    simp only [List.mem_singleton] at hr
    subst hr
    simp only [decide_eq_true_eq]
    rintro ⟨h1, h2⟩
    exact hne ⟨h1.symm, h2.symm⟩
  rw [hnil, List.append_nil]

theorem playCount_record_same (g u : String) (s : Int) (db : DB) :
    playCount (record_score g u s db) u g = playCount db u g + 1 := by
  rw [playCount, playCount, record_score_leaderboard, List.filter_append,
    List.length_append]
  have hone : List.filter (fun r => decide (r.user = u ∧ r.game = g))
      [(⟨g, u, s, db.clock⟩ : ScoreRow)] = [⟨g, u, s, db.clock⟩] := by
    simp
  rw [hone]
  rfl

theorem playCount_record_other (g u : String) (s : Int) (db : DB)
    {u2 g2 : String} (hne : ¬(u2 = u ∧ g2 = g)) :
    playCount (record_score g u s db) u2 g2 = playCount db u2 g2 := by
  rw [playCount, playCount, record_score_leaderboard, List.filter_append]
  have hnil : List.filter (fun r => decide (r.user = u2 ∧ r.game = g2))
      [(⟨g, u, s, db.clock⟩ : ScoreRow)] = [] := by
    refine List.filter_eq_nil_iff.mpr (fun r hr => ?_)
    simp only [List.mem_singleton] at hr
    subst hr
    simp only [decide_eq_true_eq]
    rintro ⟨h1, h2⟩
    exact hne ⟨h1.symm, h2.symm⟩
  rw [hnil, List.append_nil]

theorem mem_allUserGamePairs_record (g u : String) (s : Int) (db : DB)
    (p : String × String) :
    p ∈ allUserGamePairs (record_score g u s db) ↔
      p ∈ allUserGamePairs db ∨ p = (u, g) := by
  rw [allUserGamePairs, allUserGamePairs, List.mem_dedup, List.mem_dedup,
    record_score_leaderboard, List.map_append, List.mem_append]
  simp

theorem pair_mem_of_scores_ne_nil {db : DB} {u g : String}
    (h : userGameScores db u g ≠ []) : (u, g) ∈ allUserGamePairs db := by
  rw [allUserGamePairs, List.mem_dedup]
  rcases hf : db.leaderboard.filter (fun r => decide (r.user = u ∧ r.game = g)) with
    _ | ⟨r, t⟩
  · exact absurd (by rw [userGameScores, hf]; rfl) h
  · have hr : r ∈ db.leaderboard.filter (fun r => decide (r.user = u ∧ r.game = g)) := by
      rw [hf]; exact List.mem_cons_self r t
    rcases List.mem_filter.mp hr with ⟨h1, h2⟩
    rcases of_decide_eq_true h2 with ⟨hu, hg⟩
    exact List.mem_map.mpr ⟨r, h1, by rw [hu, hg]⟩

theorem record_score_achPresent_mono (g u : String) (s : Int) {db : DB}
    {a b : String} (h : achPresent db a b) :
    achPresent (record_score g u s db) a b := by
  rw [record_score]
  simp only [_maybe_award_achievements]
  exact awardIfFold_mono _ _ _ _ _ (awardIfFold_mono _ _ _ _ _ h)

theorem record_score_establishes_score (g u : String) (s : Int) (db : DB) {th : Nat}
    (hth : th ∈ scoreThresholds) (hc : Int.ofNat th ≤ s) :
    achPresent (record_score g u s db) u (scoreKey g th) := by
  rw [record_score]
  simp only [_maybe_award_achievements]
  exact awardIfFold_mono _ _ _ _ _ (awardIfFold_establishes _ _ _ _ _ _ hth hc)

theorem record_score_establishes_plays (g u : String) (s : Int) (db : DB) {pth : Nat}
    (hpth : pth ∈ playThresholds) (hc : pth ≤ playCount db u g + 1) :
    achPresent (record_score g u s db) u (playsKey g pth) := by
  rw [record_score]
  simp only [_maybe_award_achievements]
  apply awardIfFold_establishes _ _ _ _ _ _ hpth
  have hlb : (awardIfFold u (fun th => Int.ofNat th ≤ s) (scoreKey g) (scoreReason g)
      scoreThresholds { db with
        leaderboard := db.leaderboard ++ [⟨g, u, s, db.clock⟩]
        clock := db.clock + 1 }).leaderboard = (record_score g u s db).leaderboard := by
    rw [awardIfFold_leaderboard, record_score_leaderboard]
  rw [playCount_congr hlb, playCount_record_same]
  exact hc

theorem record_score_covered (g u : String) (s : Int) (db : DB)
    (h : coveredBy db db) :
    coveredBy (record_score g u s db) (record_score g u s db) := by
  intro p hp
  by_cases hpu : p = (u, g)
  · subst hpu
    constructor
    · intro th hth hcond
      rw [userGameScores_record_same] at hcond
      rcases hl : userGameScores db u g with _ | ⟨a, t⟩
      · rw [hl] at hcond
        simp only [List.nil_append] at hcond
        have hs : (maxScore [s]).getD 0 = s := rfl
        rw [hs] at hcond
        exact record_score_establishes_score g u s db hth hcond
      · rw [hl] at hcond
        have hm : (maxScore ((a :: t) ++ [s])).getD 0 = max (t.foldl max a) s := by
          show (t ++ [s]).foldl max a = _
          rw [List.foldl_append]
          rfl
        rw [hm] at hcond
        rcases le_max_iff.mp hcond with hle | hle
        · have hpm : (u, g) ∈ allUserGamePairs db :=
            pair_mem_of_scores_ne_nil (by rw [hl]; simp)
          have hold := (h (u, g) hpm).1 th hth (by rw [hl]; exact hle)
          exact record_score_achPresent_mono g u s hold
        · exact record_score_establishes_score g u s db hth hle
    · intro pth hpth hcond
      rw [playCount_record_same] at hcond
      exact record_score_establishes_plays g u s db hpth hcond
  · have hne : ¬(p.1 = u ∧ p.2 = g) := fun hc => hpu (Prod.ext hc.1 hc.2)
    have hpm : p ∈ allUserGamePairs db := by
      rcases (mem_allUserGamePairs_record g u s db p).mp hp with h1 | h1
      · exact h1
      · exact absurd h1 hpu
    constructor
    · intro th hth hcond
      rw [userGameScores_record_other g u s db hne] at hcond
      exact record_score_achPresent_mono g u s ((h p hpm).1 th hth hcond)
    · intro pth hpth hcond
      rw [playCount_record_other g u s db hne] at hcond
      exact record_score_achPresent_mono g u s ((h p hpm).2 pth hpth hcond)

/-- **C9**: starting from an empty store, after any finite sequence of
`record_score` calls (each of which runs `_maybe_award_achievements`),
`rescan_achievements` inserts no new achievement rows: the incrementally
produced achievement set is already the one the rescan derives from the final
ledger. -/
theorem online_awards_subsume_rescan (ops : List (String × String × Int)) :
    (rescan_achievements
        (ops.foldl (fun d o => record_score o.1 o.2.1 o.2.2 d) emptyDB)).2.achievements =
      (ops.foldl (fun d o => record_score o.1 o.2.1 o.2.2 d) emptyDB).achievements := by
  have hcov : ∀ (l : List (String × String × Int)) (db : DB), coveredBy db db →
      coveredBy (l.foldl (fun d o => record_score o.1 o.2.1 o.2.2 d) db)
        (l.foldl (fun d o => record_score o.1 o.2.1 o.2.2 d) db) := by
    intro l
    induction l with
    | nil => exact fun _ h => h
    | cons o t ih =>
      intro db h
      rw [List.foldl_cons]
      exact ih _ (record_score_covered o.1 o.2.1 o.2.2 db h)
  have h0 : coveredBy emptyDB emptyDB := by
    intro p hp
    simp [allUserGamePairs, emptyDB] at hp
  rw [rescan_noop_of_covered _ (hcov ops emptyDB h0)]

/-! ## The rescan counter (claim C6) -/

theorem rescanStep_fst (db0 : DB) (acc : Nat × DB) (p : String × String) :
    (rescanStep db0 acc p).1 = acc.1 +
      ((scoreThresholds.filter (fun th =>
        decide (Int.ofNat th ≤ (maxScore (userGameScores db0 p.1 p.2)).getD 0))).length +
      (playThresholds.filter (fun pth =>
        decide (pth ≤ playCount db0 p.1 p.2))).length) := by
  simp only [rescanStep, awardCountFold_eq]
  omega

theorem foldl_rescanStep_fst (db0 : DB) (l : List (String × String)) :
    ∀ acc : Nat × DB, (l.foldl (rescanStep db0) acc).1 =
      acc.1 + (l.map (fun p =>
        (scoreThresholds.filter (fun th =>
          decide (Int.ofNat th ≤ (maxScore (userGameScores db0 p.1 p.2)).getD 0))).length +
        (playThresholds.filter (fun pth =>
          decide (pth ≤ playCount db0 p.1 p.2))).length)).sum := by
  induction l with
  | nil => intro acc; simp
  | cons p t ih =>
    intro acc
    rw [List.foldl_cons, ih, rescanStep_fst, List.map_cons, List.sum_cons]
    omega

theorem sum_toFinset_eq_dedup {α : Type} [DecidableEq α] {M : Type} [AddCommMonoid M]
    (l : List α) (f : α → M) :
    l.toFinset.sum f = (l.dedup.map f).sum := by
  have h : l.dedup.toFinset = l.toFinset := by
    apply Finset.ext
    intro a
    simp [List.mem_toFinset, List.mem_dedup]
  rw [← h]
  exact List.sum_toFinset f (List.nodup_dedup l)

theorem list_sum_map_add {α : Type} (l : List α) (f g : α → Nat) :
    (l.map (fun x => f x + g x)).sum = (l.map f).sum + (l.map g).sum := by
  induction l with
  | nil => rfl
  | cons x t ih =>
    simp only [List.map_cons, List.sum_cons, ih]
    omega

theorem score_matches_length (m : Int) :
    ∑ th ∈ ({500, 1000} : Finset ℕ), (if Int.ofNat th ≤ m then 1 else 0) =
      (scoreThresholds.filter (fun th => decide (Int.ofNat th ≤ m))).length := by
  rw [show ({500, 1000} : Finset ℕ) = insert 500 {1000} from rfl,
    Finset.sum_insert (by decide), Finset.sum_singleton, scoreThresholds]
  by_cases h1 : (500 : ℤ) ≤ m <;> by_cases h2 : (1000 : ℤ) ≤ m <;>
    simp [List.filter_cons, h1, h2]

theorem plays_matches_length (c : Nat) :
    ∑ pth ∈ ({5, 10, 25} : Finset ℕ), (if pth ≤ c then 1 else 0) =
      (playThresholds.filter (fun pth => decide (pth ≤ c))).length := by
  rw [show ({5, 10, 25} : Finset ℕ) = insert 5 (insert 10 {25}) from rfl,
    Finset.sum_insert (by decide), Finset.sum_insert (by decide),
    Finset.sum_singleton, playThresholds]
  by_cases h1 : 5 ≤ c <;> by_cases h2 : 10 ≤ c <;> by_cases h3 : 25 ≤ c <;>
    simp [List.filter_cons, h1, h2, h3]

theorem spec_score_card (db : DB) :
    (((db.leaderboard.map (fun r => (r.user, r.game))).toFinset ×ˢ
        ({500, 1000} : Finset ℕ)).filter
      (fun x => Int.ofNat x.2 ≤ (maxScore (userGameScores db x.1.1 x.1.2)).getD 0)).card =
    ((allUserGamePairs db).map (fun p =>
      (scoreThresholds.filter (fun th =>
        decide (Int.ofNat th ≤ (maxScore (userGameScores db p.1 p.2)).getD 0))).length)).sum := by
  rw [Finset.card_filter, Finset.sum_product, sum_toFinset_eq_dedup, allUserGamePairs]
  congr 1
  exact List.map_congr_left (fun p _ => score_matches_length _)

theorem spec_plays_card (db : DB) :
    (((db.leaderboard.map (fun r => (r.user, r.game))).toFinset ×ˢ
        ({5, 10, 25} : Finset ℕ)).filter
      (fun x => x.2 ≤ playCount db x.1.1 x.1.2)).card =
    ((allUserGamePairs db).map (fun p =>
      (playThresholds.filter (fun pth =>
        decide (pth ≤ playCount db p.1 p.2))).length)).sum := by
  rw [Finset.card_filter, Finset.sum_product, sum_toFinset_eq_dedup, allUserGamePairs]
  congr 1
  exact List.map_congr_left (fun p _ => plays_matches_length _)

/-- **C6**: the integer returned by `rescan_achievements` counts the
`(user, game, threshold)` combinations in the ledger whose max score meets a
score threshold in {500, 1000}, plus those whose event count meets a play
threshold in {5, 10, 25} — grant attempts that matched, including thresholds
whose achievement already exists, not newly created rows. -/
theorem rescan_count_counts_threshold_matches (db : DB) :
    (rescan_achievements db).1 =
      (((db.leaderboard.map (fun r => (r.user, r.game))).toFinset ×ˢ
          ({500, 1000} : Finset ℕ)).filter
        (fun x => Int.ofNat x.2 ≤ (maxScore (userGameScores db x.1.1 x.1.2)).getD 0)).card +
      (((db.leaderboard.map (fun r => (r.user, r.game))).toFinset ×ˢ
          ({5, 10, 25} : Finset ℕ)).filter
        (fun x => x.2 ≤ playCount db x.1.1 x.1.2)).card := by
  rw [rescan_achievements, foldl_rescanStep_fst, spec_score_card, spec_plays_card,
    list_sum_map_add]
  simp

/-! ## Per-game rank (claim C3) -/

theorem maxScore_eq_none {l : List Int} : maxScore l = none ↔ l = [] := by
  cases l <;> simp [maxScore]

theorem maxScore_none_iff (db : DB) (u g : String) :
    maxScore (userGameScores db u g) = none ↔
      ∀ r ∈ db.leaderboard, ¬(r.user = u ∧ r.game = g) := by
  rw [maxScore_eq_none, userGameScores, List.map_eq_nil_iff, List.filter_eq_nil_iff]
  simp

theorem length_filter_eq_sum_map {α : Type} (t : List α) (p : α → Prop)
    [DecidablePred p] :
    (t.filter (fun x => decide (p x))).length =
      (t.map (fun x => if p x then 1 else 0)).sum := by
  induction t with
  | nil => rfl
  | cons x t ih =>
    by_cases h : p x
    · simp [List.filter_cons, h, ih]
      omega
    · simp [List.filter_cons, h, ih]

theorem length_filter_dedup {α : Type} [DecidableEq α] (l : List α) (p : α → Prop)
    [DecidablePred p] :
    (l.dedup.filter (fun x => decide (p x))).length = (l.toFinset.filter p).card := by
  rw [length_filter_eq_sum_map, Finset.card_filter, sum_toFinset_eq_dedup]

/-- **C3**: `get_rank_for_game(u, g)` returns the no-rank sentinel `None`
exactly when `u` has zero score events for `g`; otherwise it returns `1 +` the
number of distinct users whose best score for `g` strictly exceeds `u`'s best,
so tied bests get the same rank number (third conjunct). -/
theorem rank_for_game_spec (u g : String) (db : DB) :
    (get_rank_for_game u g db = none ↔
      ∀ r ∈ db.leaderboard, ¬(r.user = u ∧ r.game = g)) ∧
    (∀ b : Int, maxScore (userGameScores db u g) = some b →
      get_rank_for_game u g db = some (1 +
        (((db.leaderboard.filter (fun r => decide (r.game = g))).map
            ScoreRow.user).toFinset.filter
          (fun u2 => b < (maxScore (userGameScores db u2 g)).getD 0)).card)) ∧
    (∀ u2 : String,
      maxScore (userGameScores db u2 g) = maxScore (userGameScores db u g) →
      get_rank_for_game u2 g db = get_rank_for_game u g db) := by
  refine ⟨?_, ?_, ?_⟩
  · rw [get_rank_for_game]
    cases hm : maxScore (userGameScores db u g) with
    | none => exact iff_of_true rfl ((maxScore_none_iff db u g).mp hm)
    | some b =>
      refine iff_of_false (by simp) (fun hall => ?_)
      have := (maxScore_none_iff db u g).mpr hall
      rw [hm] at this
      cases this
  · intro b hb
    rw [get_rank_for_game, hb, gameUsers]
    exact congrArg some (by rw [length_filter_dedup, Nat.add_comm])
  · intro u2 h2
    rw [get_rank_for_game, get_rank_for_game, h2]

/-- **C3** witness: with bests ann = 300, cara = 300, bob = 700 in `"Snake"`,
the rank formula applies to `"ann"` (rank `1 +` the number of distinct users
whose best exceeds 300), and `"cara"`, tied with `"ann"`, gets the same rank. -/
theorem rank_for_game_spec_witness :
    (maxScore (userGameScores
        (record_score "Snake" "bob" 700 (record_score "Snake" "cara" 300
          (record_score "Snake" "ann" 300 emptyDB))) "ann" "Snake") = some 300 ∧
      get_rank_for_game "ann" "Snake"
        (record_score "Snake" "bob" 700 (record_score "Snake" "cara" 300
          (record_score "Snake" "ann" 300 emptyDB))) = some (1 +
        ((((record_score "Snake" "bob" 700 (record_score "Snake" "cara" 300
            (record_score "Snake" "ann" 300 emptyDB))).leaderboard.filter
            (fun r => decide (r.game = "Snake"))).map ScoreRow.user).toFinset.filter
          (fun u2 => (300 : Int) < (maxScore (userGameScores
            (record_score "Snake" "bob" 700 (record_score "Snake" "cara" 300
              (record_score "Snake" "ann" 300 emptyDB))) u2 "Snake")).getD 0)).card)) ∧
    (maxScore (userGameScores
        (record_score "Snake" "bob" 700 (record_score "Snake" "cara" 300
          (record_score "Snake" "ann" 300 emptyDB))) "cara" "Snake") =
      maxScore (userGameScores
        (record_score "Snake" "bob" 700 (record_score "Snake" "cara" 300
          (record_score "Snake" "ann" 300 emptyDB))) "ann" "Snake") ∧
      get_rank_for_game "cara" "Snake"
        (record_score "Snake" "bob" 700 (record_score "Snake" "cara" 300
          (record_score "Snake" "ann" 300 emptyDB))) =
      get_rank_for_game "ann" "Snake"
        (record_score "Snake" "bob" 700 (record_score "Snake" "cara" 300
          (record_score "Snake" "ann" 300 emptyDB)))) :=
  ⟨⟨by decide,
    (rank_for_game_spec "ann" "Snake" _).2.1 300 (by decide)⟩,
   ⟨by decide,
    (rank_for_game_spec "ann" "Snake" _).2.2 "cara" (by decide)⟩⟩

/-! ## Overall leaderboard by bests (claim C8) -/

theorem pairs_filter_perm (db : DB) (u : String) :
    ((allUserGamePairs db).filter (fun p => decide (p.1 = u))).Perm
      ((userGames db u).map (fun g => (u, g))) := by
  have hn1 : ((allUserGamePairs db).filter (fun p => decide (p.1 = u))).Nodup :=
    (List.nodup_dedup _).filter _
  have hn2 : ((userGames db u).map (fun g => (u, g))).Nodup :=
    List.Nodup.map (fun g1 g2 h => congrArg Prod.snd h) (List.nodup_dedup _)
  rw [List.perm_ext_iff_of_nodup hn1 hn2]
  intro x
  simp only [allUserGamePairs, userGames, List.mem_filter, List.mem_map, List.mem_dedup,
    decide_eq_true_eq]
  constructor
  · rintro ⟨⟨r, hr, hrx⟩, hfst⟩
    have hru : r.user = u := by rw [← hfst, ← hrx]
    refine ⟨r.game, ⟨r, ⟨hr, hru⟩, rfl⟩, ?_⟩
    rw [← hrx, hru]
  · rintro ⟨g, ⟨r, ⟨hr, hru⟩, hg⟩, hgx⟩
    refine ⟨⟨r, hr, ?_⟩, ?_⟩
    · rw [hru, hg, hgx]
    · rw [← hgx]

theorem codeTotal_eq_spec (db : DB) (u : String) :
    (((allUserGamePairs db).filter (fun p => decide (p.1 = u))).map
      (fun p => (maxScore (userGameScores db p.1 p.2)).getD 0)).sum =
    ∑ g ∈ ((db.leaderboard.filter (fun r => decide (r.user = u))).map
        ScoreRow.game).toFinset, (maxScore (userGameScores db u g)).getD 0 := by
  rw [List.Perm.sum_eq ((pairs_filter_perm db u).map
    (fun p : String × String => (maxScore (userGameScores db p.1 p.2)).getD 0))]
  rw [List.map_map, sum_toFinset_eq_dedup]
  rfl

/-- **C8**: every `(user, total)` pair returned by
`get_overall_leaderboard_by_bests` has `total` equal to the sum, over the
distinct games that user has at least one event in, of the user's maximum
recorded score in that game; the list is ordered by total descending and has
at most `limit` entries. -/
theorem overall_leaderboard_by_bests_spec (limit : Nat) (db : DB) :
    (∀ p ∈ get_overall_leaderboard_by_bests limit db,
      p.2 = ∑ g ∈ ((db.leaderboard.filter (fun r => decide (r.user = p.1))).map
          ScoreRow.game).toFinset, (maxScore (userGameScores db p.1 g)).getD 0) ∧
    (get_overall_leaderboard_by_bests limit db).Sorted byTotalDesc ∧
    (get_overall_leaderboard_by_bests limit db).length ≤ limit := by
  refine ⟨?_, ?_, ?_⟩
  · intro p hp
    have hp2 : p ∈ ((allUsers db).map (fun u =>
        (u, (((allUserGamePairs db).filter (fun q => decide (q.1 = u))).map
          (fun q => (maxScore (userGameScores db q.1 q.2)).getD 0)).sum))) :=
      (List.mem_insertionSort byTotalDesc).mp (List.mem_of_mem_take hp)
    rcases List.mem_map.mp hp2 with ⟨u, _, hpe⟩
    rw [← hpe]
    exact codeTotal_eq_spec db u
  · exact List.Pairwise.sublist (List.take_sublist _ _)
      (List.sorted_insertionSort byTotalDesc _)
  · exact List.length_take_le _ _

/-- **C8** witness: with bests ann = 300 and bob = 700 in `"Snake"`, the entry
`("bob", 700)` appears in the leaderboard and its total satisfies the
sum-of-per-game-bests formula. -/
theorem overall_leaderboard_by_bests_spec_witness :
    ("bob", (700 : Int)) ∈ get_overall_leaderboard_by_bests 20
      (record_score "Snake" "bob" 700 (record_score "Snake" "ann" 300 emptyDB)) ∧
    (700 : Int) = ∑ g ∈ (((record_score "Snake" "bob" 700
        (record_score "Snake" "ann" 300 emptyDB)).leaderboard.filter
        (fun r => decide (r.user = "bob"))).map ScoreRow.game).toFinset,
      (maxScore (userGameScores (record_score "Snake" "bob" 700
        (record_score "Snake" "ann" 300 emptyDB)) "bob" g)).getD 0 :=
  ⟨by decide,
    (overall_leaderboard_by_bests_spec 20
      (record_score "Snake" "bob" 700 (record_score "Snake" "ann" 300 emptyDB))).1
      ("bob", 700) (by decide)⟩

end ArcadeHub
